import Mathlib

/-!
Shallow embedding of the two pre-commit check scripts of this repository:
`pre_commit_checks/check_copyright/check_copyright.py` and
`pre_commit_checks/check_author.py`.

Strings are modelled as Lean `String` (lists of characters); the Python
regular expressions used by the scripts are transliterated into executable
character-level matchers.  The `\s` class and `str.strip` are modelled on
their ASCII fragment (the inputs the scripts see are source-code lines).
Python `str.find`, which returns `-1` on failure, is modelled with
`Option Nat`.
-/

namespace PreCommit

/-- The whitespace characters of the regex class `\s` and of `str.strip`
(ASCII fragment). -/
def isPySpace (c : Char) : Bool :=
  c == ' ' || c == '\t' || c == '\n' || c == '\r' || c == '\x0b' || c == '\x0c'

/-- Python `str.strip()`: remove leading and trailing whitespace. -/
def pyStrip (s : String) : String :=
  ⟨((s.data.dropWhile isPySpace).reverse.dropWhile isPySpace).reverse⟩

/-- Python `str.find(sub)`: index of the first occurrence of `sub`,
`none` when absent (Python returns `-1`). -/
def findSub : List Char → List Char → Option Nat
  | [], sub => if sub.isPrefixOf ([] : List Char) then some 0 else none
  | c :: t, sub =>
    if sub.isPrefixOf (c :: t) then some 0 else (findSub t sub).map (fun i => i + 1)

/-- Python `str.find(sub, start)`: first occurrence at index at least `start`. -/
def findSubFrom (l sub : List Char) (start : Nat) : Option Nat :=
  (findSub (l.drop start) sub).map (fun i => i + start)

/-- The literal `/*`. -/
def openSlashStar : List Char := ['/', '*']

/-- The literal `*/`. -/
def closeStarSlash : List Char := ['*', '/']

/-- The literal `//`. -/
def slashSlash : List Char := ['/', '/']

/-- The loop body of `get_leading_comments`: first argument is the
`multiline_comment` flag, second the remaining lines of the stream. -/
def glcGo : Bool → List String → List String
  | _, [] => []
  | false, l :: ls =>
    let line := pyStrip l
    if line = "" then glcGo false ls
    else
      match findSub line.data openSlashStar with
      | some p =>
        if findSubFrom line.data closeStarSlash p = none then line :: glcGo true ls
        else line :: glcGo false ls
      | none =>
        if (findSub line.data slashSlash).isSome then line :: glcGo false ls
        else []
  | true, l :: ls =>
    let line := pyStrip l
    if line = "" then glcGo true ls
    else if (findSub line.data closeStarSlash).isSome then line :: glcGo false ls
    else line :: glcGo true ls

/-- `get_leading_comments(stream)`: the leading comments in C/C++ context
from the beginning to the first non-comment symbol. -/
def get_leading_comments (stream : List String) : List String :=
  glcGo false stream

/-- Four decimal digits at the head of the list (the regex `[0-9]{4}`
anchored at the current position). -/
def fourDigitsHere : List Char → Bool
  | a :: b :: c :: d :: _ => a.isDigit && b.isDigit && c.isDigit && d.isDigit
  | _ => false

/-- The regex fragment `.*[0-9]{4}` anchored at the current position:
four consecutive digits reachable without crossing a newline
(Python `.` does not match `\n`). -/
def digitsAfter : List Char → Bool
  | [] => false
  | c :: cs => fourDigitsHere (c :: cs) || ((c != '\n') && digitsAfter cs)

/-- Match of the regex `[Cc]opyright\s?.*[0-9]{4}` anchored at the current
position: the word, an optional whitespace, then four digits later on the
same line. -/
def copyrightAt : List Char → Bool
  | [] => false
  | c :: cs =>
    (c == 'C' || c == 'c') && ("opyright".data.isPrefixOf cs) &&
      (digitsAfter (cs.drop 8) ||
        match cs.drop 8 with
        | w :: t2 => isPySpace w && digitsAfter t2
        | [] => false)

/-- Truth value of `re.search(r'.*[Cc]opyright\s?.*([0-9]{4}).*', s)`:
the anchored match tried at every position. -/
def hasCopyrightYear : List Char → Bool
  | [] => false
  | c :: cs => copyrightAt (c :: cs) || hasCopyrightYear cs

/-- `get_copyright_strings(tested_strings)`: keeps the strings matching the
copyright-with-year regex. -/
def get_copyright_strings (tested_strings : List String) : List String :=
  tested_strings.filter (fun s => hasCopyrightYear s.data)

/-- One element of a transliterated regular expression: a literal word, a
single character of a class, or zero-or-more characters of a class. -/
inductive RItem where
  | lit (w : List Char)
  | one (p : Char → Bool)
  | many (p : Char → Bool)

/-- Zero-or-more characters of class `p` consumed before the continuation
`k` matches: the continuation is tried at every position reachable through
`p`-characters (the backtracking of a starred class). -/
def manyMatch (p : Char → Bool) (k : List Char → Bool) : List Char → Bool
  | [] => k []
  | c :: cs => k (c :: cs) || (p c && manyMatch p k cs)

/-- Anchored match of a sequence of regex items against a prefix of the
input (the trailing characters are unconstrained, as under `.*$`). -/
def rmatch : List RItem → List Char → Bool
  | [] => fun _ => true
  | .lit w :: rest => fun s => w.isPrefixOf s && rmatch rest (s.drop w.length)
  | .one p :: rest => fun s =>
    match s with
    | [] => false
    | c :: cs => p c && rmatch rest cs
  | .many p :: rest => manyMatch p (rmatch rest)

/-- `re.search` truth value: the anchored match tried at every start
position of the input. -/
def rsearch (items : List RItem) : List Char → Bool
  | [] => rmatch items []
  | c :: cs => rmatch items (c :: cs) || rsearch items cs

/-- The character class `[0-9 \-]`. -/
def isDigitSpaceHyphen (c : Char) : Bool :=
  c.isDigit || c == ' ' || c == '-'

/-- Transliteration of the regex
`Copyright\s*?\([cC]\)\s*[0-9 \-]*\s*?Intel\s*?Corporation`
(the leading and trailing `.*` are supplied by the search). -/
def intelPattern : List RItem :=
  [ .lit "Copyright".data, .many isPySpace, .lit ['('],
    .one (fun c => c == 'c' || c == 'C'), .lit [')'],
    .many isPySpace, .many isDigitSpaceHyphen, .many isPySpace,
    .lit "Intel".data, .many isPySpace, .lit "Corporation".data ]

/-- `is_intel_copyright(tested_string)`: truth value of
`re.search(r'.*Copyright\s*?\([cC]\)\s*[0-9 \-]*\s*?Intel\s*?Corporation.*', s)`. -/
def is_intel_copyright (tested_string : String) : Bool :=
  rsearch intelPattern tested_string.data

/-- Result of `get_copyright_year_or_range`: the dict `{'year': y}` or
`{'range': [a, b]}`. -/
inductive YearOrRange where
  | year (y : Nat)
  | range (a b : Nat)
deriving DecidableEq, Repr

/-- Numeric value of a decimal digit character. -/
def digitVal (c : Char) : Nat := c.toNat - 48

/-- Value of the four digits at the head of the list. -/
def num4 : List Char → Nat
  | a :: b :: c :: d :: _ =>
    ((digitVal a * 10 + digitVal b) * 10 + digitVal c) * 10 + digitVal d
  | _ => 0

/-- The regex fragment `\ ?[0-9]{4}` (second half of the range group):
an optional space then four digits, returning their value. -/
def rangeTail2 : List Char → Option Nat
  | ' ' :: rest => if fourDigitsHere rest then some (num4 rest) else none
  | l => if fourDigitsHere l then some (num4 l) else none

/-- The regex fragment `\ ?\-\ ?[0-9]{4}` following the first four digits:
an optional space, a hyphen, an optional space, four digits. -/
def rangeTail : List Char → Option Nat
  | ' ' :: '-' :: rest => rangeTail2 rest
  | '-' :: rest => rangeTail2 rest
  | _ => none

/-- Anchored match of `([0-9]{4}\ ?\-\ ?)?([0-9]{4})` at the current
position, with the greedy preference of the optional group. -/
def yrAt (l : List Char) : Option YearOrRange :=
  if fourDigitsHere l then
    match rangeTail (l.drop 4) with
    | some b => some (.range (num4 l) b)
    | none => some (.year (num4 l))
  else none

/-- `re.search` of the year-or-range pattern: leftmost anchored match. -/
def yrSearch : List Char → Option YearOrRange
  | [] => none
  | c :: cs =>
    match yrAt (c :: cs) with
    | some r => some r
    | none => yrSearch cs

/-- `get_copyright_year_or_range(tested_string)`: the year or range found
in the string, `none` when the pattern does not occur. -/
def get_copyright_year_or_range (tested_string : String) : Option YearOrRange :=
  yrSearch tested_string.data

/-- The module constant `YEAR = 2019`, the year of copyright. -/
def YEAR : Nat := 2019

/-- The detail string appended by `append_details` on each failing branch
of `is_copyright_correct`, with its payload. -/
inductive CheckDetail where
  | missingCopyright
  | tooManyCopyrights (strings : List String)
  | incorrectFormat (s : String)
  | incorrectYear (s : String)
  | incorrectRange (s : String)
deriving DecidableEq, Repr

/-- The loop of `is_copyright_correct` over the copyright strings:
accumulates the Intel copyright found so far (initially the empty string);
returns `none` when a second Intel copyright is met (the too-many branch). -/
def scanIntel : List String → String → Option String
  | [], acc => some acc
  | s :: rest, acc =>
    if is_intel_copyright s then
      if acc = "" then scanIntel rest s else none
    else scanIntel rest acc

/-- `CopyrightChecker.is_copyright_correct(tested_strings)`: the returned
boolean together with the detail appended on the failing branch. -/
def is_copyright_correct (tested_strings : List String) : Bool × Option CheckDetail :=
  let copyright_strings := get_copyright_strings tested_strings
  if copyright_strings = [] then (false, some .missingCopyright)
  else
    match scanIntel copyright_strings "" with
    | none => (false, some (.tooManyCopyrights copyright_strings))
    | some intel =>
      if intel = "" then (true, none)
      else
        match get_copyright_year_or_range intel with
        | none => (false, some (.incorrectFormat intel))
        | some (.year y) =>
          if y ≠ YEAR then (false, some (.incorrectYear intel)) else (true, none)
        | some (.range a b) =>
          if b ≠ YEAR ∨ b ≤ a then (false, some (.incorrectRange intel)) else (true, none)

/-- The deny list `incorrect_author_names` of `Checker.check_author`. -/
def incorrect_author_names : List String := ["root", "mediasdk"]

/-- `Checker.check_author(author)`. -/
def check_author (author : String) : Bool :=
  !(incorrect_author_names.contains author)

/-- The forbidden suffix `incorrect_email_endswith` of `Checker.check_email`. -/
def incorrect_email_endswith : String := "@localhost.localdomain"

/-- `Checker.check_email(email)`; Python `str.endswith` is character-level
suffix testing. -/
def check_email (email : String) : Bool :=
  !(incorrect_email_endswith.data.isSuffixOf email.data)

/-- `Checker.check()` after the author information is fetched: the
conjunction of the two sub-checks. -/
def check (author email : String) : Bool :=
  check_author author && check_email email

/-- Four consecutive decimal digits occur somewhere in the list. -/
def hasFourDigits : List Char → Bool
  | [] => false
  | c :: cs => fourDigitsHere (c :: cs) || hasFourDigits cs

/-- A line that `get_leading_comments` records (or skips as blank) while
staying out of multi-line mode: blank, a block comment opened and closed on
the same line, or a line bearing `//` and no `/*`. -/
def keepLine (l : String) : Bool :=
  pyStrip l == "" ||
    ((findSub (pyStrip l).data openSlashStar).elim
      ((findSub (pyStrip l).data slashSlash).isSome)
      (fun p => (findSubFrom (pyStrip l).data closeStarSlash p).isSome))

/-- Declarative reading of the anchored item-sequence match: the input is
the matched text followed by arbitrary trailing characters. -/
inductive MatchSeq : List RItem → List Char → Prop
  | nil (s : List Char) : MatchSeq [] s
  | lit (w : List Char) (rest : List RItem) (s : List Char) :
      MatchSeq rest s → MatchSeq (.lit w :: rest) (w ++ s)
  | one (p : Char → Bool) (rest : List RItem) (c : Char) (s : List Char) :
      p c = true → MatchSeq rest s → MatchSeq (.one p :: rest) (c :: s)
  | manyNil (p : Char → Bool) (rest : List RItem) (s : List Char) :
      MatchSeq rest s → MatchSeq (.many p :: rest) s
  | manyCons (p : Char → Bool) (rest : List RItem) (c : Char) (s : List Char) :
      p c = true → MatchSeq (.many p :: rest) s → MatchSeq (.many p :: rest) (c :: s)

/-- Case-insensitive character comparison (ASCII). -/
def lowerEq (a b : Char) : Bool := a.toLower == b.toLower

/-- The word `w` occurs at the head of the input, compared case-insensitively. -/
def ciWordAt : List Char → List Char → Bool
  | [], _ => true
  | _ :: _, [] => false
  | w :: ws, c :: cs => lowerEq w c && ciWordAt ws cs

/-- Scan for a case-insensitive occurrence of the word followed by four
consecutive digits later in the line. -/
def ciScan : List Char → Bool
  | [] => false
  | c :: cs =>
    (ciWordAt "copyright".data (c :: cs) && hasFourDigits ((c :: cs).drop 9)) || ciScan cs

/-- Spec-side classifier, following the specification words for comparison
with the code: a line contains the word, in any capitalization, followed
later in the line by a four-digit year. -/
def ciCopyrightSpec (s : String) : Bool := ciScan s.data

/-! ### Helper lemmas -/

theorem isPrefixOf_append_self (w s : List Char) : w.isPrefixOf (w ++ s) = true := by
  induction w with
  | nil => simp [List.isPrefixOf]
  | cons a t ih => simp [List.isPrefixOf, ih]

theorem eq_append_of_isPrefixOf (w : List Char) :
    ∀ s : List Char, w.isPrefixOf s = true → s = w ++ s.drop w.length := by
  induction w with
  | nil => intro s _; rfl
  | cons a t ih =>
    intro s h
    cases s with
    | nil => simp [List.isPrefixOf] at h
    | cons b u =>
      simp only [List.isPrefixOf, Bool.and_eq_true, beq_iff_eq] at h
      obtain ⟨rfl, hu⟩ := h
      simpa using congrArg (a :: ·) (ih u hu)

theorem scanIntel_of_no_intel (cs : List String) :
    ∀ acc : String, (∀ a ∈ cs, is_intel_copyright a = false) → scanIntel cs acc = some acc := by
  induction cs with
  | nil => intro acc _; rfl
  | cons s t ih =>
    intro acc h
    have hs := h s (by simp)
    simp [scanIntel, hs, ih acc (fun a ha => h a (by simp [ha]))]

theorem scanIntel_single (cs : List String) (x : String)
    (h : cs.filter is_intel_copyright = [x]) : scanIntel cs "" = some x := by
  induction cs with
  | nil => simp at h
  | cons s t ih =>
    by_cases hs : is_intel_copyright s = true
    · rw [List.filter_cons_of_pos hs] at h
      obtain ⟨rfl, ht⟩ : s = x ∧ ∀ a ∈ t, is_intel_copyright a = false := by simpa using h
      simp [scanIntel, hs, scanIntel_of_no_intel t s ht]
    · rw [List.filter_cons_of_neg (by simpa using hs)] at h
      simp [scanIntel, hs, ih h]

theorem scanIntel_none_aux (cs : List String) :
    ∀ acc : String, acc ≠ "" → cs.filter is_intel_copyright ≠ [] → scanIntel cs acc = none := by
  induction cs with
  | nil => intro acc _ h; simp at h
  | cons s t ih =>
    intro acc hacc h
    by_cases hs : is_intel_copyright s = true
    · simp [scanIntel, hs, hacc]
    · rw [List.filter_cons_of_neg (by simpa using hs)] at h
      simp [scanIntel, hs, ih acc hacc h]

theorem scanIntel_none_of_two (cs : List String)
    (h : 2 ≤ (cs.filter is_intel_copyright).length) : scanIntel cs "" = none := by
  induction cs with
  | nil => simp at h
  | cons s t ih =>
    by_cases hs : is_intel_copyright s = true
    · have hne : s ≠ "" := by
        intro h0
        rw [h0] at hs
        exact absurd hs (by decide)
      rw [List.filter_cons_of_pos hs] at h
      have ht : t.filter is_intel_copyright ≠ [] := by
        intro h0
        rw [h0] at h
        simp at h
      simp [scanIntel, hs, hne, scanIntel_none_aux t s hne ht]
    · rw [List.filter_cons_of_neg (by simpa using hs)] at h
      simp [scanIntel, hs, ih h]

theorem scanIntel_mem (cs : List String) :
    ∀ acc x : String, scanIntel cs acc = some x → x = acc ∨ x ∈ cs := by
  induction cs with
  | nil =>
    intro acc x h
    simp [scanIntel] at h
    exact Or.inl h.symm
  | cons s t ih =>
    intro acc x h
    by_cases hs : is_intel_copyright s = true
    · by_cases hacc : acc = ""
      · simp [scanIntel, hs, hacc] at h
        rcases ih s x h with h1 | h1
        · exact Or.inr (by simp [h1])
        · exact Or.inr (by simp [h1])
      · simp [scanIntel, hs, hacc] at h
    · simp [scanIntel, hs] at h
      rcases ih acc x h with h1 | h1
      · exact Or.inl h1
      · exact Or.inr (by simp [h1])

/-! ### Claim C5: two or more organizational notices -/

/-- C5: a comment block whose copyright strings contain two or more
organizational (Intel) notices fails the per-file check with the
too-many-copyrights detail listing all copyright strings found, whatever
the years in the notices. -/
theorem too_many_intel_fails (tested : List String)
    (h : 2 ≤ ((get_copyright_strings tested).filter is_intel_copyright).length) :
    is_copyright_correct tested =
      (false, some (.tooManyCopyrights (get_copyright_strings tested))) := by
  have hne : ¬ get_copyright_strings tested = [] := by
    intro h0
    rw [h0] at h
    simp at h
  have hsc : scanIntel (get_copyright_strings tested) "" = none :=
    scanIntel_none_of_two _ h
  simp [is_copyright_correct, hne, hsc]

/-- Witness for C5 at a concrete two-notice block. -/
theorem too_many_intel_fails_witness :
    is_copyright_correct
        (["// Copyright (c) 2019 Intel Corporation",
          "// Copyright (c) 2018 Intel Corporation"]) =
      (false, some (.tooManyCopyrights (get_copyright_strings
        (["// Copyright (c) 2019 Intel Corporation",
          "// Copyright (c) 2018 Intel Corporation"])))) :=
  too_many_intel_fails _ (by decide)

/-! ### Claim C6: third-party notices are not policed, absence fails -/

/-- C6: a comment block with at least one copyright string and no
organizational notice passes; a block with no copyright strings at all
fails with the missing-copyright detail. -/
theorem third_party_pass_and_missing_fail (tested : List String) :
    ((get_copyright_strings tested ≠ [] ∧
        (get_copyright_strings tested).filter is_intel_copyright = []) →
      is_copyright_correct tested = (true, none)) ∧
    (get_copyright_strings tested = [] →
      is_copyright_correct tested = (false, some .missingCopyright)) := by
  constructor
  · rintro ⟨hne, hfil⟩
    have hno : ∀ a ∈ get_copyright_strings tested, is_intel_copyright a = false := by
      intro x hx
      by_cases hi : is_intel_copyright x = true
      · have hmem : x ∈ (get_copyright_strings tested).filter is_intel_copyright :=
          List.mem_filter.mpr ⟨hx, hi⟩
        rw [hfil] at hmem
        simp at hmem
      · simpa using hi
    have hsc : scanIntel (get_copyright_strings tested) "" = some "" :=
      scanIntel_of_no_intel _ "" hno
    simp [is_copyright_correct, hne, hsc]
  · intro h
    simp [is_copyright_correct, h]

/-- Witness for C6: a third-party-only block passes, an empty block fails. -/
theorem third_party_pass_and_missing_fail_witness :
    is_copyright_correct (["// Copyright 2019 Someone"]) = (true, none) ∧
      is_copyright_correct (["// hello"]) = (false, some .missingCopyright) :=
  ⟨(third_party_pass_and_missing_fail _).1 (by constructor <;> decide),
   (third_party_pass_and_missing_fail _).2 (by decide)⟩

/-! ### Claim C2: the 2019-2018 range scenario -/

/-- C2 counterexample: the comment block of the single line
`/* Copyright 2019-2018 Intel Corporation */` passes the per-file check
(the notice has no `(c)`, so it is not recognised as organizational),
contradicting the claimed failure. -/
theorem range_block_without_paren_passes :
    is_copyright_correct (["/* Copyright 2019-2018 Intel Corporation */"]) = (true, none) := by
  decide

/-- C2 amended: with the mandatory `(c)` present, the block
`/* Copyright (c) 2019-2018 Intel Corporation */` fails, the failure
carrying the incorrect-range detail (the code emits one message for a
range whose end differs from the policy year or does not exceed its
start; here both hold). -/
theorem range_block_with_paren_fails :
    is_copyright_correct (["/* Copyright (c) 2019-2018 Intel Corporation */"]) =
      (false, some (.incorrectRange ("/* Copyright (c) 2019-2018 Intel Corporation */"))) := by
  decide

/-! ### Claim C7: author name and email policy -/

/-- C7: the author check passes exactly when the name is neither `root`
nor `mediasdk` and the email does not end with `@localhost.localdomain`;
a forbidden email suffix fails it regardless of the name, and a
deny-listed name fails it regardless of the email. -/
theorem author_email_policy (a e : String) :
    (check a e = true ↔
      (a ≠ "root" ∧ a ≠ "mediasdk" ∧
        ("@localhost.localdomain".data.isSuffixOf e.data = false))) ∧
    ("@localhost.localdomain".data.isSuffixOf e.data = true → check a e = false) ∧
    ((a = "root" ∨ a = "mediasdk") → check a e = false) := by
  have hmain : check a e = true ↔
      (a ≠ "root" ∧ a ≠ "mediasdk" ∧
        ("@localhost.localdomain".data.isSuffixOf e.data = false)) := by
    simp [check, check_author, check_email, incorrect_author_names,
      incorrect_email_endswith, and_assoc]
  refine ⟨hmain, ?_, ?_⟩
  · intro hsuf
    cases hc : check a e
    · rfl
    · have hm := hmain.mp hc
      rw [hsuf] at hm
      exact absurd hm.2.2 (by simp)
  · intro hname
    cases hc : check a e
    · rfl
    · have hm := hmain.mp hc
      rcases hname with h | h
      · exact absurd h hm.1
      · exact absurd h hm.2.1

/-- Witness for C7: the deny-listed name `root` fails with a valid email. -/
theorem author_email_policy_witness :
    check ("root") ("dev@company.com") = false :=
  (author_email_policy ("root") ("dev@company.com")).2.2 (Or.inl rfl)

/-! ### Claim C10: a `//` anywhere in a line records the whole line -/

/-- C10: outside a multi-line comment, a line whose stripped text contains
`//` anywhere (also after code text) is recorded whole and the scan
continues with the following lines. -/
theorem code_line_with_marker_recorded (l : String) (ls : List String)
    (h : (findSub (pyStrip l).data slashSlash).isSome = true) :
    ∃ b, glcGo false (l :: ls) = pyStrip l :: glcGo b ls := by
  have hne : ¬ pyStrip l = "" := by
    intro h0
    rw [h0] at h
    exact absurd h (by decide)
  rcases hfs : findSub (pyStrip l).data openSlashStar with _ | p
  · exact ⟨false, by simp [glcGo, hne, hfs, h]⟩
  · by_cases hcl : findSubFrom (pyStrip l).data closeStarSlash p = none
    · exact ⟨true, by simp [glcGo, hne, hfs, hcl]⟩
    · exact ⟨false, by simp [glcGo, hne, hfs, hcl]⟩

/-- Witness for C10: a line that begins with code and carries a trailing
`//` comment is recorded by the extractor. -/
theorem code_line_with_marker_recorded_witness :
    ∃ b, glcGo false (("int x; // note") :: ([] : List String)) =
      pyStrip ("int x; // note") :: glcGo b [] :=
  code_line_with_marker_recorded ("int x; // note") [] (by decide)

/-! ### Digit lemmas for the year parser -/

theorem hasFour_of_drop (l : List Char) :
    ∀ n : Nat, hasFourDigits (l.drop n) = true → hasFourDigits l = true := by
  induction l with
  | nil => intro n h; simpa using h
  | cons c cs ih =>
    intro n h
    cases n with
    | zero => simpa using h
    | succ m =>
      rw [List.drop_succ_cons] at h
      simp [hasFourDigits, ih m h]

theorem digitsAfter_imp_hasFour (l : List Char) :
    digitsAfter l = true → hasFourDigits l = true := by
  induction l with
  | nil => intro h; simp [digitsAfter] at h
  | cons c cs ih =>
    intro h
    simp only [digitsAfter, Bool.or_eq_true, Bool.and_eq_true] at h
    rcases h with h1 | ⟨_, h2⟩
    · simp [hasFourDigits, h1]
    · simp [hasFourDigits, ih h2]

theorem copyrightAt_imp_hasFour (l : List Char) :
    copyrightAt l = true → hasFourDigits l = true := by
  cases l with
  | nil => intro h; simp [copyrightAt] at h
  | cons c cs =>
    intro h
    simp only [copyrightAt, Bool.and_eq_true] at h
    obtain ⟨⟨_, _⟩, h3⟩ := h
    have hfour : hasFourDigits (cs.drop 8) = true := by
      rcases hds : cs.drop 8 with _ | ⟨w, t2⟩ <;> rw [hds] at h3
      · simp [digitsAfter] at h3
      · rw [Bool.or_eq_true] at h3
        rcases h3 with h4 | h4
        · exact digitsAfter_imp_hasFour _ h4
        · rw [Bool.and_eq_true] at h4
          simp [hasFourDigits, digitsAfter_imp_hasFour _ h4.2]
    simp [hasFourDigits, hasFour_of_drop cs 8 hfour]

theorem hasCopyrightYear_imp_hasFour (l : List Char) :
    hasCopyrightYear l = true → hasFourDigits l = true := by
  induction l with
  | nil => intro h; simp [hasCopyrightYear] at h
  | cons c cs ih =>
    intro h
    simp only [hasCopyrightYear, Bool.or_eq_true] at h
    rcases h with h1 | h1
    · exact copyrightAt_imp_hasFour _ h1
    · simp [hasFourDigits, ih h1]

theorem hasFour_imp_yrSearch (l : List Char) :
    hasFourDigits l = true → yrSearch l ≠ none := by
  induction l with
  | nil => intro h; simp [hasFourDigits] at h
  | cons c cs ih =>
    intro h
    by_cases hfd : fourDigitsHere (c :: cs) = true
    · have hex : ∃ r, yrAt (c :: cs) = some r := by
        unfold yrAt
        rw [if_pos hfd]
        rcases rangeTail ((c :: cs).drop 4) with _ | b
        · exact ⟨_, rfl⟩
        · exact ⟨_, rfl⟩
      obtain ⟨r, hr⟩ := hex
      simp [yrSearch, hr]
    · have hcs : hasFourDigits cs = true := by
        simp only [hasFourDigits, Bool.or_eq_true] at h
        rcases h with h1 | h1
        · exact absurd h1 hfd
        · exact h1
      have hya : yrAt (c :: cs) = none := by
        unfold yrAt
        rw [if_neg hfd]
      simpa [yrSearch, hya] using ih hcs

/-! ### Claim C1: exactly one organizational notice -/

/-- C1: with exactly one organizational (Intel) notice among the copyright
strings of a comment block, the per-file check passes exactly when the
notice parses as the single year 2019 or as a range ending at 2019 whose
start is strictly smaller. -/
theorem intel_notice_year_policy (tested : List String) (intel : String)
    (h : (get_copyright_strings tested).filter is_intel_copyright = [intel]) :
    ((is_copyright_correct tested).1 = true ↔
      (get_copyright_year_or_range intel = some (.year 2019) ∨
        ∃ a b, get_copyright_year_or_range intel = some (.range a b) ∧
          b = 2019 ∧ a < b)) := by
  have hmem : intel ∈ (get_copyright_strings tested).filter is_intel_copyright := by
    rw [h]
    simp
  have hint : is_intel_copyright intel = true := (List.mem_filter.mp hmem).2
  have hne : ¬ get_copyright_strings tested = [] := by
    intro h0
    rw [h0] at h
    simp at h
  have hsc : scanIntel (get_copyright_strings tested) "" = some intel :=
    scanIntel_single _ _ h
  have hi0 : ¬ intel = "" := by
    intro h0
    rw [h0] at hint
    exact absurd hint (by decide)
  rcases hyr : get_copyright_year_or_range intel with _ | yr
  · simp [is_copyright_correct, hne, hsc, hi0, hyr]
  · rcases yr with y | ⟨a, b⟩
    · by_cases hy : y = 2019
      · subst hy
        have hlhs : (is_copyright_correct tested).1 = true := by
          simp [is_copyright_correct, hne, hsc, hi0, hyr, YEAR]
        rw [hlhs]
        exact iff_of_true rfl (Or.inl rfl)
      · have hlhs : (is_copyright_correct tested).1 = false := by
          simp [is_copyright_correct, hne, hsc, hi0, hyr, YEAR, hy]
        rw [hlhs]
        simp only [Bool.false_eq_true, false_iff]
        rintro (hl | ⟨a', b', heq, _, _⟩)
        · exact hy (by simpa using hl)
        · simp at heq
    · by_cases hcond : b ≠ YEAR ∨ b ≤ a
      · have hlhs : (is_copyright_correct tested).1 = false := by
          simp [is_copyright_correct, hne, hsc, hi0, hyr, hcond]
        rw [hlhs]
        simp only [Bool.false_eq_true, false_iff]
        rintro (hl | ⟨a', b', heq, hb', hab'⟩)
        · simp at hl
        · obtain ⟨rfl, rfl⟩ : a = a' ∧ b = b' := by simpa using heq
          rcases hcond with h1 | h1
          · exact h1 (by simpa [YEAR] using hb')
          · omega
      · have hlhs : (is_copyright_correct tested).1 = true := by
          simp [is_copyright_correct, hne, hsc, hi0, hyr, hcond]
        rw [hlhs]
        push_neg at hcond
        refine iff_of_true rfl (Or.inr ⟨a, b, rfl, ?_, hcond.2⟩)
        simpa [YEAR] using hcond.1

/-- Witness for C1: a single Intel notice with range 2018-2019 passes. -/
theorem intel_notice_year_policy_witness :
    (is_copyright_correct (["// Copyright (c) 2018-2019 Intel Corporation"])).1 = true :=
  (intel_notice_year_policy (["// Copyright (c) 2018-2019 Intel Corporation"])
      ("// Copyright (c) 2018-2019 Intel Corporation") (by decide)).mpr
    (Or.inr ⟨2018, 2019, by decide, rfl, by decide⟩)

/-! ### Claim C9: year parsing never fails on a classified copyright string -/

/-- C9: a string accepted by the copyright-string classifier always yields
a year or a range from the parser, so the incorrect-format branch of the
per-file check is unreachable. -/
theorem copyright_parse_total :
    (∀ s : String, hasCopyrightYear s.data = true →
      get_copyright_year_or_range s ≠ none) ∧
    (∀ (tested : List String) (x : String),
      is_copyright_correct tested ≠ (false, some (.incorrectFormat x))) := by
  have key : ∀ s : String, hasCopyrightYear s.data = true →
      get_copyright_year_or_range s ≠ none := by
    intro s hs
    exact hasFour_imp_yrSearch s.data (hasCopyrightYear_imp_hasFour s.data hs)
  refine ⟨key, ?_⟩
  intro tested x heq
  by_cases hcs : get_copyright_strings tested = []
  · simp [is_copyright_correct, hcs] at heq
  · rcases hsc : scanIntel (get_copyright_strings tested) "" with _ | intel
    · simp [is_copyright_correct, hcs, hsc] at heq
    · by_cases hi : intel = ""
      · simp [is_copyright_correct, hcs, hsc, hi] at heq
      · have hmem : intel ∈ get_copyright_strings tested := by
          rcases scanIntel_mem _ _ _ hsc with h1 | h1
          · exact absurd h1 hi
          · exact h1
        have hcy : hasCopyrightYear intel.data = true := by
          simp only [get_copyright_strings] at hmem
          simpa using (List.mem_filter.mp hmem).2
        rcases hyr : get_copyright_year_or_range intel with _ | yr
        · exact key intel hcy hyr
        · rcases yr with y | ⟨a, b⟩
          · by_cases hy : y = YEAR
            · simp [is_copyright_correct, hcs, hsc, hi, hyr, hy] at heq
            · simp [is_copyright_correct, hcs, hsc, hi, hyr, hy] at heq
          · by_cases hcond : b ≠ YEAR ∨ b ≤ a
            · simp [is_copyright_correct, hcs, hsc, hi, hyr, hcond] at heq
            · simp [is_copyright_correct, hcs, hsc, hi, hyr, hcond] at heq

/-- Witness for C9: the parser succeeds on a classified copyright string. -/
theorem copyright_parse_total_witness :
    get_copyright_year_or_range ("Copyright 2019") ≠ none :=
  copyright_parse_total.1 ("Copyright 2019") (by decide)

/-! ### Completeness of the item matcher -/

theorem rmatch_of_matchSeq {items : List RItem} {s : List Char}
    (h : MatchSeq items s) : rmatch items s = true := by
  induction h with
  | nil s => rfl
  | lit w rest s hm ih =>
    simp [rmatch, isPrefixOf_append_self, List.drop_left, ih]
  | one p rest c s hp hm ih => simp [rmatch, hp, ih]
  | manyNil p rest s hm ih =>
    cases s with
    | nil => simpa [rmatch, manyMatch] using ih
    | cons c cs => simp [rmatch, manyMatch, ih]
  | manyCons p rest c s hp hm ih =>
    have ih' : manyMatch p (rmatch rest) s = true := by simpa [rmatch] using ih
    simp [rmatch, manyMatch, hp, ih']

theorem matchSeq_many_all (p : Char → Bool) :
    ∀ w : List Char, w.all p = true →
      ∀ (rest : List RItem) (s : List Char), MatchSeq rest s →
        MatchSeq (.many p :: rest) (w ++ s) := by
  intro w
  induction w with
  | nil => intro _ rest s h; exact MatchSeq.manyNil p rest s h
  | cons a t ih =>
    intro hw rest s h
    rw [List.all_cons, Bool.and_eq_true] at hw
    exact MatchSeq.manyCons p rest a (t ++ s) hw.1 (ih hw.2 rest s h)

theorem rsearch_of_rmatch (items : List RItem) :
    ∀ pre s : List Char, rmatch items s = true → rsearch items (pre ++ s) = true := by
  intro pre
  induction pre with
  | nil =>
    intro s h
    cases s with
    | nil => simpa [rsearch] using h
    | cons c cs => simp [rsearch, h]
  | cons a t ih =>
    intro s h
    simp [rsearch, ih s h]

/-! ### Claim C3: the organizational-notice template -/

/-- C3 counterexample: a notice without the `(c)` mark is not classified
as organizational, although it carries the word `Copyright`, a year and
`Intel Corporation`. -/
theorem no_paren_not_intel :
    is_intel_copyright ("Copyright 2019 Intel Corporation") = false := by decide

/-- C3 amended: a string containing `Copyright`, then the mandatory `(c)`
or `(C)`, then optional digits, spaces and hyphens, then `Intel
Corporation` (whitespace allowed between the template words) is classified
as organizational. -/
theorem intel_template_sufficient (s : String) (pre w1 w2 d w3 w4 post : List Char)
    (k : Char)
    (hs : s.data = pre ++ "Copyright".data ++ w1 ++ ['('] ++ [k] ++ [')'] ++ w2 ++ d ++
      w3 ++ "Intel".data ++ w4 ++ "Corporation".data ++ post)
    (h1 : w1.all isPySpace = true) (hk : k = 'c' ∨ k = 'C')
    (h2 : w2.all isPySpace = true) (hd : d.all isDigitSpaceHyphen = true)
    (h3 : w3.all isPySpace = true) (h4 : w4.all isPySpace = true) :
    is_intel_copyright s = true := by
  have hk' : (fun c => c == 'c' || c == 'C') k = true := by
    rcases hk with h | h <;> simp [h]
  unfold is_intel_copyright
  rw [hs]
  simp only [List.append_assoc]
  apply rsearch_of_rmatch intelPattern pre
  apply rmatch_of_matchSeq
  unfold intelPattern
  exact MatchSeq.lit _ _ _ (matchSeq_many_all _ _ h1 _ _ (MatchSeq.lit _ _ _
    (MatchSeq.one _ _ _ _ hk' (MatchSeq.lit _ _ _ (matchSeq_many_all _ _ h2 _ _
      (matchSeq_many_all _ _ hd _ _ (matchSeq_many_all _ _ h3 _ _ (MatchSeq.lit _ _ _
        (matchSeq_many_all _ _ h4 _ _ (MatchSeq.lit _ _ _ (MatchSeq.nil post)))))))))))

/-- Witness for C3: the canonical notice with `(c)` is organizational. -/
theorem intel_template_sufficient_witness :
    is_intel_copyright ("Copyright (c) 2019 Intel Corporation") = true :=
  intel_template_sufficient ("Copyright (c) 2019 Intel Corporation")
    [] [' '] [' '] ("2019".data) [' '] [' '] [] 'c'
    (by decide) (by decide) (Or.inl rfl) (by decide) (by decide) (by decide) (by decide)

/-! ### Claim C4: the copyright-string classifier -/

theorem no_nl_hasFour_imp_digitsAfter (l : List Char) :
    (∀ c ∈ l, c ≠ '\n') → hasFourDigits l = true → digitsAfter l = true := by
  induction l with
  | nil => intro _ h; simp [hasFourDigits] at h
  | cons c cs ih =>
    intro hnl h
    simp only [hasFourDigits, Bool.or_eq_true] at h
    rcases h with h1 | h1
    · simp [digitsAfter, h1]
    · have hc : c ≠ '\n' := hnl c (by simp)
      have hrec := ih (fun x hx => hnl x (by simp [hx])) h1
      simp [digitsAfter, hrec, hc]

theorem copyrightAt_of_word (b : List Char) (c : Char)
    (hc : c = 'C' ∨ c = 'c') (hb : digitsAfter b = true) :
    copyrightAt (c :: ("opyright".data ++ b)) = true := by
  have h8 : ("opyright".data ++ b).drop 8 = b := by
    have hlen : ("opyright".data).length = 8 := rfl
    rw [← hlen, List.drop_left]
  simp only [copyrightAt, h8, Bool.and_eq_true, Bool.or_eq_true, beq_iff_eq]
  exact ⟨⟨hc, isPrefixOf_append_self _ _⟩, Or.inl hb⟩

theorem hasCopyrightYear_append (a : List Char) :
    ∀ t : List Char, copyrightAt t = true → hasCopyrightYear (a ++ t) = true := by
  induction a with
  | nil =>
    intro t h
    cases t with
    | nil => simp [copyrightAt] at h
    | cons c cs => simp [hasCopyrightYear, h]
  | cons x xs ih =>
    intro t h
    simp [hasCopyrightYear, ih t h]

theorem copyright_fwd (l : List Char) :
    hasCopyrightYear l = true →
      ∃ a w b, l = a ++ w ++ b ∧
        (w = "Copyright".data ∨ w = "copyright".data) ∧ hasFourDigits b = true := by
  induction l with
  | nil => intro h; simp [hasCopyrightYear] at h
  | cons c cs ih =>
    intro h
    simp only [hasCopyrightYear, Bool.or_eq_true] at h
    rcases h with h1 | h1
    · simp only [copyrightAt, Bool.and_eq_true, Bool.or_eq_true, beq_iff_eq] at h1
      obtain ⟨⟨hc, hpre⟩, hdig⟩ := h1
      have hsp8 : cs = "opyright".data ++ cs.drop 8 :=
        eq_append_of_isPrefixOf _ cs hpre
      have hfourb : hasFourDigits (cs.drop 8) = true := by
        rcases hds : cs.drop 8 with _ | ⟨w0, t2⟩ <;> rw [hds] at hdig
        · rcases hdig with h4 | h4
          · simp [digitsAfter] at h4
          · simp at h4
        · rcases hdig with h4 | h4
          · exact digitsAfter_imp_hasFour _ h4
          · rw [Bool.and_eq_true] at h4
            simp [hasFourDigits, digitsAfter_imp_hasFour _ h4.2]
      refine ⟨[], c :: "opyright".data, cs.drop 8, ?_, ?_, hfourb⟩
      · calc c :: cs = c :: ("opyright".data ++ cs.drop 8) := by rw [← hsp8]
          _ = [] ++ (c :: "opyright".data) ++ cs.drop 8 := by simp
      · rcases hc with rfl | rfl
        · exact Or.inl (by decide)
        · exact Or.inr (by decide)
    · obtain ⟨a, w, b, hsplit, hw, hfb⟩ := ih h1
      exact ⟨c :: a, w, b, by simp [hsplit], hw, hfb⟩

/-- C4 counterexample: the line `COPYRIGHT 2019` contains the word
case-insensitively followed by a four-digit year (the spec-side reading),
yet the code's classifier rejects it: only the first letter of the word
may vary in case. -/
theorem uppercase_copyright_not_matched :
    ciCopyrightSpec ("COPYRIGHT 2019") = true ∧
      get_copyright_strings (["COPYRIGHT 2019"]) = [] := by decide

/-- C4 amended: a newline-free line is classified as a copyright string
exactly when it contains `Copyright` or `copyright` (only the initial
letter may vary in case) followed later in the line by four consecutive
digits. -/
theorem copyright_string_charwise (s : String) (hnl : ∀ c ∈ s.data, c ≠ '\n') :
    (hasCopyrightYear s.data = true ↔
      ∃ a w b, s.data = a ++ w ++ b ∧
        (w = "Copyright".data ∨ w = "copyright".data) ∧ hasFourDigits b = true) := by
  constructor
  · exact copyright_fwd s.data
  · rintro ⟨a, w, b, hsplit, hw, hfb⟩
    have hbnl : ∀ c ∈ b, c ≠ '\n' := by
      intro c hc
      exact hnl c (by rw [hsplit]; simp [hc])
    have hda : digitsAfter b = true := no_nl_hasFour_imp_digitsAfter b hbnl hfb
    rw [hsplit]
    have hword : ∃ c0, (c0 = 'C' ∨ c0 = 'c') ∧ w = c0 :: "opyright".data := by
      rcases hw with rfl | rfl
      · exact ⟨'C', Or.inl rfl, by decide⟩
      · exact ⟨'c', Or.inr rfl, by decide⟩
    obtain ⟨c0, hc0, rfl⟩ := hword
    have hassoc : a ++ (c0 :: "opyright".data) ++ b =
        a ++ (c0 :: ("opyright".data ++ b)) := by simp
    rw [hassoc]
    exact hasCopyrightYear_append a _ (copyrightAt_of_word b c0 hc0 hda)

/-- Witness for C4: the line `Copyright 2019` is classified. -/
theorem copyright_string_charwise_witness :
    hasCopyrightYear ("Copyright 2019").data = true :=
  (copyright_string_charwise ("Copyright 2019") (by decide)).mpr
    ⟨[], "Copyright".data, ' ' :: "2019".data, by decide, Or.inl rfl, by decide⟩

/-! ### Claim C8: unterminated block comment absorbs the rest -/

theorem glc_true_absorbs (ls : List String) :
    (∀ l ∈ ls, findSub (pyStrip l).data closeStarSlash = none) →
    glcGo true ls = (ls.map pyStrip).filter (fun x => x != "") := by
  induction ls with
  | nil => intro _; simp [glcGo]
  | cons l t ih =>
    intro h
    have hl := h l (by simp)
    have ht := ih (fun x hx => h x (by simp [hx]))
    by_cases hb : pyStrip l = ""
    · simp [glcGo, hb, ht]
    · have hns : (findSub (pyStrip l).data closeStarSlash).isSome = false := by
        rw [hl]
        rfl
      simp [glcGo, hb, hns, ht]

theorem glc_false_pre (pre : List String) :
    ∀ ls : List String, (∀ l ∈ pre, keepLine l = true) →
      glcGo false (pre ++ ls) =
        (pre.map pyStrip).filter (fun x => x != "") ++ glcGo false ls := by
  induction pre with
  | nil => intro ls _; simp
  | cons l t ih =>
    intro ls h
    have hl := h l (by simp)
    have ht := ih ls (fun x hx => h x (by simp [hx]))
    by_cases hb : pyStrip l = ""
    · simp [glcGo, hb, ht, keepLine]
    · rcases hfo : findSub (pyStrip l).data openSlashStar with _ | p
      · simp only [keepLine, Bool.or_eq_true, beq_iff_eq, hb, false_or, hfo,
          Option.elim_none] at hl
        simp [glcGo, hb, hfo, hl, ht]
      · simp only [keepLine, Bool.or_eq_true, beq_iff_eq, hb, false_or, hfo,
          Option.elim_some] at hl
        have hcl : ¬ findSubFrom (pyStrip l).data closeStarSlash p = none := by
          intro h0
          rw [h0] at hl
          simp at hl
        simp [glcGo, hb, hfo, hcl, ht]

/-- C8 counterexample: with the leading region ending in an unterminated
block comment, a remaining blank line is skipped, not included in the
output (neither as written nor stripped). -/
theorem blank_line_not_included :
    get_leading_comments (["/*", "   "]) = ["/*"] ∧
      ¬ (("   ") ∈ get_leading_comments (["/*", "   "])) ∧
      ¬ (("") ∈ get_leading_comments (["/*", "   "])) := by decide

/-- C8 amended: when the leading comment region reaches an opener whose
line has no closer after it and no later line carries a closer, the
extractor terminates with the stripped content of every remaining
non-blank line included, blank lines being skipped. -/
theorem unterminated_block_absorbs (pre : List String) (op : String) (rest : List String)
    (p : Nat) (hpre : ∀ l ∈ pre, keepLine l = true)
    (hop1 : findSub (pyStrip op).data openSlashStar = some p)
    (hop2 : findSubFrom (pyStrip op).data closeStarSlash p = none)
    (hrest : ∀ l ∈ rest, findSub (pyStrip l).data closeStarSlash = none) :
    get_leading_comments (pre ++ op :: rest) =
      (pre.map pyStrip).filter (fun x => x != "") ++
        pyStrip op :: (rest.map pyStrip).filter (fun x => x != "") := by
  unfold get_leading_comments
  rw [glc_false_pre pre (op :: rest) hpre]
  have hne : ¬ pyStrip op = "" := by
    intro h0
    rw [h0] at hop1
    have hnone : findSub ("" : String).data openSlashStar = none := by decide
    rw [hnone] at hop1
    exact Option.noConfusion hop1
  simp [glcGo, hne, hop1, hop2, glc_true_absorbs rest hrest]

/-- Witness for C8 at a concrete stream with an unterminated opener. -/
theorem unterminated_block_absorbs_witness :
    get_leading_comments ((["// a"]) ++ ("/* begin") :: (["body", "  "])) =
      ((["// a"]).map pyStrip).filter (fun x => x != "") ++
        pyStrip ("/* begin") :: (((["body", "  "]).map pyStrip).filter (fun x => x != "")) :=
  unterminated_block_absorbs (["// a"]) ("/* begin") (["body", "  "]) 0
    (by decide) (by decide) (by decide) (by decide)

end PreCommit
